import Mathlib

/-!
Verification development for the `rim` modal text editor (`src/main.rs`).

The editor's buffer is a ropey `Rope`; we embed it as the flat character
sequence `Doc := List Char`, with ropey's derived line structure:
`len_lines` counts line breaks plus one, a line slice includes its trailing
line break, and `line_to_char r` is the index one past the `r`-th break.

Rust-side partiality is made explicit: machine subtraction that can
underflow (a panic in debug builds) and ropey operations with out-of-range
indices (always a panic) are `Option`-valued, and a keystroke step returns
a `StepResult` that is either a crash (panic), a propagated I/O error, or
a normal result carrying the continue-running flag of the event loop.
-/

namespace Rim

/-- A document: the rope's character content, flattened. -/
abbrev Doc := List Char

/-- ropey `Rope::len_chars`. -/
def lenChars (d : Doc) : Nat := d.length

/-- ropey `Rope::len_lines`: the number of line breaks plus one (ropey counts
the final line after the last break, so an empty rope still has one line). -/
def lenLines (d : Doc) : Nat := d.count '\n' + 1

/-- ropey `Rope::line_to_char r`: char index of the start of line `r`, i.e. one
past the `r`-th line break; clamps to `len_chars` when `r` runs past the last
break (ropey itself panics only for `r > len_lines`, checked separately). -/
def lineStart : Doc → Nat → Nat
  | _, 0 => 0
  | [], _ + 1 => 0
  | c :: rest, r + 1 => if c = '\n' then 1 + lineStart rest r else 1 + lineStart rest (r + 1)

/-- Char length of ropey line `r` — includes the trailing line break when the
line has one (this is `rope.line(r).len_chars()`). -/
def lineLen (d : Doc) (r : Nat) : Nat := lineStart d (r + 1) - lineStart d r

/-- The characters of ropey line `r` (line break included). -/
def lineText (d : Doc) (r : Nat) : Doc := (d.drop (lineStart d r)).take (lineLen d r)

/-- Checked machine subtraction: Rust `a - b` on `usize`; underflow is a panic
(debug semantics), modelled as `none`. -/
def csub (a b : Nat) : Option Nat := if b ≤ a then some (a - b) else none

/-- ropey `Rope::insert` of a single char at char index `i`
(panics when `i > len_chars`). -/
def insertAt (d : Doc) (i : Nat) (c : Char) : Option Doc :=
  if i ≤ d.length then some (d.take i ++ c :: d.drop i) else none

/-- ropey `Rope::remove (i..i+1)` (panics when `i ≥ len_chars`). -/
def removeAt (d : Doc) (i : Nat) : Option Doc :=
  if i < d.length then some (d.take i ++ d.drop (i + 1)) else none

/-- ropey `Rope::line_to_char` with its panic condition (`line > len_lines`). -/
def lineToChar (d : Doc) (line : Nat) : Option Nat :=
  if line ≤ lenLines d then some (lineStart d line) else none

/-- `rope.line(i).len_chars()` with ropey's panic condition (`i ≥ len_lines`). -/
def lineLenChecked (d : Doc) (i : Nat) : Option Nat :=
  if i < lenLines d then some (lineLen d i) else none

/-- Outcome of the underlying `File::create` + `write_to` used by `Buffer::save`. -/
inductive WriteOutcome
  | success
  | failure
  deriving DecidableEq

/-- An I/O error value (`std::io::Error`), propagated by `?`. -/
inductive IOErr
  | ioError
  deriving DecidableEq

/-- Outcome of `fs::File::open` + `Rope::from_reader` in `Buffer::from_file`. -/
inductive LoadOutcome
  | found (content : Doc)
  | notFound
  | readError
  deriving DecidableEq

/-- `struct Buffer` from src/main.rs. -/
structure Buffer where
  text : Doc
  filename : Option String
  dirty : Bool
  deriving DecidableEq

/-- `Buffer::new`. -/
def Buffer.new : Buffer := { text := [], filename := none, dirty := false }

/-- `Buffer::from_file`: a missing file yields an empty buffer already bound to
the name; any other open/read error is propagated (`?`). -/
def Buffer.fromFile (filename : String) (lo : LoadOutcome) : Except IOErr Buffer :=
  match lo with
  | .found content => .ok { text := content, filename := some filename, dirty := false }
  | .notFound => .ok { text := [], filename := some filename, dirty := false }
  | .readError => .error .ioError

/-- `Buffer::save`: with a filename the write either succeeds (clearing the
dirty flag, returning `true`) or raises the I/O error; with no filename it
returns `false` without touching anything. -/
def Buffer.save (b : Buffer) (wo : WriteOutcome) : Except IOErr (Buffer × Bool) :=
  match b.filename with
  | some _ =>
    match wo with
    | .success => .ok ({ b with dirty := false }, true)
    | .failure => .error .ioError
  | none => .ok (b, false)

/-- The exact bytes `Buffer::save` hands to the file store:
`rope.write_to` emits the rope's content verbatim. -/
def Buffer.savedBytes (b : Buffer) : Doc := b.text

/-- `Buffer::len_lines`. -/
def Buffer.lenLines (b : Buffer) : Nat := Rim.lenLines b.text

/-- `Buffer::insert_char`: insert at `line_to_char line + col`. -/
def Buffer.insertChar (b : Buffer) (line col : Nat) (c : Char) : Option Buffer :=
  match lineToChar b.text line with
  | none => none
  | some idx =>
    match insertAt b.text (idx + col) c with
    | none => none
    | some t => some { b with text := t, dirty := true }

/-- `Buffer::delete_char` (backspace inside a line): for `col > 0`, remove the
char at `line_to_char line + col - 1`; no-op for `col = 0`. -/
def Buffer.deleteChar (b : Buffer) (line col : Nat) : Option Buffer :=
  if col > 0 then
    match lineToChar b.text line with
    | none => none
    | some idx =>
      match removeAt b.text (idx + col - 1) with
      | none => none
      | some t => some { b with text := t, dirty := true }
  else some b

/-- `Buffer::insert_new_line`: insert a `"\n"` at `line_to_char line + col`. -/
def Buffer.insertNewLine (b : Buffer) (line col : Nat) : Option Buffer :=
  match lineToChar b.text line with
  | none => none
  | some idx =>
    match insertAt b.text (idx + col) '\n' with
    | none => none
    | some t => some { b with text := t, dirty := true }

/-- `Buffer::join_with_previous_line`: no-op returning 0 for `line = 0`; else
read `rope.line(line-1).len_chars()` (the ropey line, break included), then
remove the char just before `line_to_char line`. -/
def Buffer.joinWithPreviousLine (b : Buffer) (line : Nat) : Option (Buffer × Nat) :=
  if line = 0 then some (b, 0)
  else
    match lineLenChecked b.text (line - 1) with
    | none => none
    | some prevLineLen =>
      match lineToChar b.text line with
      | none => none
      | some prevLineEndChar =>
        match csub prevLineEndChar 1 with
        | none => none
        | some i =>
          match removeAt b.text i with
          | none => none
          | some t => some ({ b with text := t, dirty := true }, prevLineLen)

/-- `enum Mode` with its per-variant payloads. -/
inductive Mode
  | normal
  | insert
  | visual (selectionStart : Nat × Nat)
  | command (commandBuffer : List Char)
  deriving DecidableEq

/-- Logical key of a `crossterm::event::KeyEvent`. -/
inductive KeyCode
  | char (c : Char)
  | left
  | right
  | up
  | down
  | enter
  | esc
  | backspace
  | other
  deriving DecidableEq

/-- A key event: the key code plus whether `modifiers == KeyModifiers::CONTROL`. -/
structure KeyEvent where
  code : KeyCode
  ctrl : Bool
  deriving DecidableEq

/-- `struct Editor` from src/main.rs (terminal handles are external). -/
structure Editor where
  cx : Nat
  cy : Nat
  screenRows : Nat
  screenCols : Nat
  buffer : Buffer
  rowOffset : Nat
  statusMsg : String
  mode : Mode
  deriving DecidableEq

/-- Result of handling one keystroke: `crash` models a Rust panic (integer
underflow in debug builds, or an out-of-range ropey index), `ioErr` an I/O
error propagated by `?`, `ok e c` the new state with the continue flag. -/
inductive StepResult
  | crash
  | ioErr
  | ok (e : Editor) (cont : Bool)
  deriving DecidableEq

/-- The repeated pattern
`if file_row < len_lines { line(file_row).len_chars() } else { 0 }`. -/
def Editor.currentLineLen (e : Editor) : Nat :=
  let fileRow := e.cy + e.rowOffset
  if fileRow < e.buffer.lenLines then lineLen e.buffer.text fileRow else 0

/-- `Editor::clamp_cursor_to_line`: mode-dependent horizontal clamp; only `cx`
changes. -/
def Editor.clampCursorToLine (e : Editor) : Editor :=
  let currentLineLen := e.currentLineLen
  let cx1 := match e.mode with
    | .normal | .visual _ =>
      let maxCx := if currentLineLen > 0 then currentLineLen - 1 else 0
      if e.cx > maxCx then maxCx else e.cx
    | .insert => if e.cx > currentLineLen then currentLineLen else e.cx
    | .command _ => e.cx
  let cx2 := if currentLineLen = 0 ∧ cx1 > 0 then 0 else cx1
  { e with cx := cx2 }

/-- `Editor::scroll_check`: pull `cy` back onto the document when past its end
(saturating arithmetic), then clamp `row_offset` to `len_lines - 1`. -/
def Editor.scrollCheck (e : Editor) : Editor :=
  let L := e.buffer.lenLines
  let cy1 := if e.cy + e.rowOffset ≥ L then (if L > 0 then L - 1 - e.rowOffset else 0) else e.cy
  { e with cy := cy1, rowOffset := min e.rowOffset (L - 1) }

/-- `Editor::insert_char` (insert-mode typing): clamp `cx` to the current ropey
line length, insert, advance `cx`. -/
def Editor.insertCharE (e : Editor) (c : Char) : Option Editor :=
  match e.buffer.insertChar (e.cy + e.rowOffset)
      (if e.cx > e.currentLineLen then e.currentLineLen else e.cx) c with
  | none => none
  | some b =>
    some { e with buffer := b, cx := (if e.cx > e.currentLineLen then e.currentLineLen else e.cx) + 1 }

/-- `Editor::insert_new_line` (Enter in insert mode): clamp `cx`, insert the
break, move to column 0 of the next row, scrolling at the bottom edge.
`screen_rows - 1` is machine subtraction. -/
def Editor.insertNewLineE (e : Editor) : Option Editor :=
  match e.buffer.insertNewLine (e.cy + e.rowOffset)
      (if e.cx > e.currentLineLen then e.currentLineLen else e.cx) with
  | none => none
  | some b =>
    match csub e.screenRows 1 with
    | none => none
    | some m =>
      if e.cy < m then some { e with buffer := b, cx := 0, cy := e.cy + 1 }
      else some { e with buffer := b, cx := 0, rowOffset := e.rowOffset + 1 }

/-- `Editor::delete_char` (Backspace in insert mode): at column 0 join with the
previous line and put `cx` at the returned length; otherwise clamp `cx` and
remove the char to its left. -/
def Editor.deleteCharE (e : Editor) : Option Editor :=
  if e.cx = 0 then
    if e.cy + e.rowOffset > 0 then
      match e.buffer.joinWithPreviousLine (e.cy + e.rowOffset) with
      | none => none
      | some (b, prevLineLen) =>
        if e.cy > 0 then some { e with buffer := b, cx := prevLineLen, cy := e.cy - 1 }
        else some { e with buffer := b, cx := prevLineLen, rowOffset := e.rowOffset - 1 }
    else some e
  else
    if e.cx > e.currentLineLen then
      -- the clamp pulls cx to the line length; the `if self.cx > 0` retest
      if e.currentLineLen > 0 then
        match e.buffer.deleteChar (e.cy + e.rowOffset) e.currentLineLen with
        | none => none
        | some b => some { e with buffer := b, cx := e.currentLineLen - 1 }
      else some { e with cx := e.currentLineLen }
    else
      match e.buffer.deleteChar (e.cy + e.rowOffset) e.cx with
      | none => none
      | some b => some { e with buffer := b, cx := e.cx - 1 }

/-- Whether the event's code is `KeyCode::Char(':')` (modifiers ignored, as in
the `matches!` test guarding the status-message clear). -/
def isColonChar : KeyCode → Bool
  | .char c => c = ':'
  | _ => false

/-- The state mutation of `Editor::process_normal_keypress` before the final
clamp and scroll check. Arms guarded by `event.modifiers == CONTROL` fall
through to the wildcard no-op when the guard fails. -/
def Editor.normalMove (e : Editor) (ev : KeyEvent) : Option Editor :=
  match ev.code with
  | .char 'h' | .left => some (if e.cx > 0 then { e with cx := e.cx - 1 } else e)
  | .char 'l' | .right =>
    let currentLineLen := e.currentLineLen
    let maxCx := if currentLineLen > 0 then currentLineLen - 1 else 0
    some (if e.cx < maxCx then { e with cx := e.cx + 1 } else e)
  | .char 'k' | .up =>
    some (if e.cy > 0 then { e with cy := e.cy - 1 }
          else if e.rowOffset > 0 then { e with rowOffset := e.rowOffset - 1 } else e)
  | .char 'j' | .down =>
    let fileLastRow := e.buffer.lenLines - 1
    if e.cy + e.rowOffset < fileLastRow then
      match csub e.screenRows 1 with
      | none => none
      | some m =>
        some (if e.cy < m then { e with cy := e.cy + 1 } else { e with rowOffset := e.rowOffset + 1 })
    else some e
  | .char 'd' =>
    if ev.ctrl then
      let newOffset := min (e.rowOffset + e.screenRows / 2) (e.buffer.lenLines - 1)
      match csub newOffset e.rowOffset with
      | none => none
      | some dy => some (Editor.scrollCheck { e with rowOffset := newOffset, cy := e.cy - dy })
    else some e
  | .char 'u' =>
    if ev.ctrl then
      let newOffset := e.rowOffset - e.screenRows / 2
      let dy := e.rowOffset - newOffset
      match csub e.screenRows 1 with
      | none => none
      | some m => some (Editor.scrollCheck { e with rowOffset := newOffset, cy := min (e.cy + dy) m })
    else some e
  | .char 'i' => some { e with mode := .insert, statusMsg := "-- INSERT --" }
  | .char 'v' => some { e with mode := .visual (e.cx, e.cy + e.rowOffset), statusMsg := "-- VISUAL --" }
  | .char ':' => some { e with mode := .command (":".toList), statusMsg := "" }
  | _ => some e

/-- The `if !matches!(event.code, KeyCode::Char(':')) { self.status_msg.clear() }`
prologue of the Normal-mode handler. -/
def Editor.clearStatusUnlessColon (e : Editor) (ev : KeyEvent) : Editor :=
  if isColonChar ev.code then e else { e with statusMsg := "" }

/-- `Editor::process_normal_keypress`: clear the status message (unless the key
is `':'`), apply the movement/mode arm, then clamp and scroll-check. -/
def Editor.processNormalKeypress (e : Editor) (ev : KeyEvent) : StepResult :=
  match (e.clearStatusUnlessColon ev).normalMove ev with
  | none => .crash
  | some e1 => .ok e1.clampCursorToLine.scrollCheck true

/-- The state mutation of `Editor::process_visual_keypress` before the final
clamp and scroll check: Escape returns to Normal; movement is as in Normal
mode (no half-page arms); everything else is a no-op. -/
def Editor.visualMove (e : Editor) (ev : KeyEvent) : Option Editor :=
  match ev.code with
  | .esc => some { e with mode := .normal, statusMsg := "" }
  | .char 'h' | .left => some (if e.cx > 0 then { e with cx := e.cx - 1 } else e)
  | .char 'l' | .right =>
    let currentLineLen := e.currentLineLen
    let maxCx := if currentLineLen > 0 then currentLineLen - 1 else 0
    some (if e.cx < maxCx then { e with cx := e.cx + 1 } else e)
  | .char 'k' | .up =>
    some (if e.cy > 0 then { e with cy := e.cy - 1 }
          else if e.rowOffset > 0 then { e with rowOffset := e.rowOffset - 1 } else e)
  | .char 'j' | .down =>
    let fileLastRow := e.buffer.lenLines - 1
    if e.cy + e.rowOffset < fileLastRow then
      match csub e.screenRows 1 with
      | none => none
      | some m =>
        some (if e.cy < m then { e with cy := e.cy + 1 } else { e with rowOffset := e.rowOffset + 1 })
    else some e
  | _ => some e

/-- `Editor::process_visual_keypress`: clear the status message, apply the arm,
then clamp and scroll-check. -/
def Editor.processVisualKeypress (e : Editor) (ev : KeyEvent) : StepResult :=
  match Editor.visualMove { e with statusMsg := "" } ev with
  | none => .crash
  | some e1 => .ok e1.clampCursorToLine.scrollCheck true

/-- Rust `char::is_whitespace` restricted to the ASCII whitespace that can
occur in a typed command. -/
def isWhitespaceChar (c : Char) : Bool :=
  c = ' ' ∨ c = '\t' ∨ c = '\n' ∨ c = '\r'

/-- Accumulator-style worker for `split_whitespace`. -/
def splitWSAux : List Char → List Char → List (List Char)
  | [], acc => if acc = [] then [] else [acc.reverse]
  | c :: rest, acc =>
    if isWhitespaceChar c then
      if acc = [] then splitWSAux rest [] else acc.reverse :: splitWSAux rest []
    else splitWSAux rest (c :: acc)

/-- `str::split_whitespace().collect()`. -/
def splitWhitespace (s : List Char) : List (List Char) := splitWSAux s []

/-- The `if parts.len() > 1 { self.buffer.filename = Some(parts[1].to_string()) }`
step shared by `:w` and `:wq`. -/
def rebindFilename (b : Buffer) (args : List (List Char)) : Buffer :=
  match args with
  | a :: _ => { b with filename := some (String.mk a) }
  | [] => b

/-- `Editor::execute_command`: tokenize, dispatch on the first token.
Write failures propagate as `ioErr`; the `unwrap()` of the filename after a
successful save is a potential panic, modelled as `crash`. -/
def Editor.executeCommand (e : Editor) (command : List Char) (wo : WriteOutcome) : StepResult :=
  match splitWhitespace command with
  | [] => .ok e true
  | tok :: args =>
    if tok = ":q".toList then
      if e.buffer.dirty then
        .ok { e with statusMsg := "No write since last change (use :q! to override)" } true
      else .ok e false
    else if tok = ":q!".toList then .ok e false
    else if tok = ":w".toList then
      match (rebindFilename e.buffer args).save wo with
      | .error _ => .ioErr
      | .ok (b1, true) =>
        match b1.filename with
        | some f => .ok { e with buffer := b1, statusMsg := "Saved file: " ++ f } true
        | none => .crash
      | .ok (b1, false) =>
        .ok { e with buffer := b1, statusMsg := "No filename specified. Use :w <filename>" } true
    else if tok = ":wq".toList then
      match (rebindFilename e.buffer args).save wo with
      | .error _ => .ioErr
      | .ok (b1, true) =>
        match b1.filename with
        | some f => .ok { e with buffer := b1, statusMsg := "Saved file: " ++ f } false
        | none => .crash
      | .ok (b1, false) =>
        if ¬ b1.dirty then .ok { e with buffer := b1 } false
        else .ok { e with buffer := b1, statusMsg := "No filename specified. Use :w <filename>" } true
    else .ok { e with statusMsg := "Unknown command: " ++ String.mk command } true

/-- `Editor::process_insert_keypress`. -/
def Editor.processInsertKeypress (e : Editor) (ev : KeyEvent) : StepResult :=
  match ev.code with
  | .esc => .ok (Editor.clampCursorToLine { e with mode := Mode.normal, statusMsg := "" }) true
  | .char c =>
    match Editor.insertCharE { e with statusMsg := "" } c with
    | none => .crash
    | some e1 => .ok e1 true
  | .enter =>
    match Editor.insertNewLineE { e with statusMsg := "" } with
    | none => .crash
    | some e1 => .ok e1 true
  | .backspace =>
    match Editor.deleteCharE { e with statusMsg := "" } with
    | none => .crash
    | some e1 => .ok e1 true
  | _ => .ok { e with statusMsg := "" } true

/-- `Editor::process_command_keypress`: Enter switches to Normal and executes;
Escape aborts; Backspace pops, aborting when only the colon is left. -/
def Editor.processCommandKeypress (e : Editor) (ev : KeyEvent) (wo : WriteOutcome) : StepResult :=
  match e.mode with
  | .command cb =>
    match ev.code with
    | .enter => Editor.executeCommand { e with mode := Mode.normal } cb wo
    | .esc => .ok { e with mode := Mode.normal, statusMsg := "" } true
    | .char c => .ok { e with mode := Mode.command (cb ++ [c]) } true
    | .backspace =>
      if cb.length > 1 then .ok { e with mode := Mode.command cb.dropLast } true
      else .ok { e with mode := Mode.normal, statusMsg := "" } true
    | _ => .ok e true
  | _ => .ok e true

/-- `Editor::process_keypress`: route by mode. -/
def Editor.processKeypress (e : Editor) (ev : KeyEvent) (wo : WriteOutcome) : StepResult :=
  match e.mode with
  | .normal => e.processNormalKeypress ev
  | .insert => e.processInsertKeypress ev
  | .visual _ => e.processVisualKeypress ev
  | .command _ => e.processCommandKeypress ev wo

/-- `Editor::get_selection_range`: in Visual mode, the anchor and the live
cursor ordered so start ≤ end (swap when the live end precedes the anchor);
`None` in every other mode. -/
def Editor.getSelectionRange (e : Editor) : Option ((Nat × Nat) × (Nat × Nat)) :=
  match e.mode with
  | .visual selectionStart =>
    let endPos : Nat × Nat := (e.cx, e.cy + e.rowOffset)
    if endPos.2 < selectionStart.2 ∨ (endPos.2 = selectionStart.2 ∧ endPos.1 < selectionStart.1) then
      some (endPos, selectionStart)
    else some (selectionStart, endPos)
  | _ => none

/-- `Editor::new` given the reported terminal size and the loaded buffer:
`screen_rows = rows - 1` is machine subtraction (panics when `rows = 0`). -/
def Editor.init (rows cols : Nat) (b : Buffer) : Option Editor :=
  match csub rows 1 with
  | none => none
  | some sr =>
    let msg := match b.filename with
      | some f => "Loaded file: " ++ f
      | none => if b.text.length > 0 then "[No Name]" else "HELP: :q = quit"
    some { cx := 0, cy := 0, screenRows := sr, screenCols := cols, buffer := b,
           rowOffset := 0, statusMsg := msg, mode := Mode.normal }

/-- Fate of the session after `run`/`main` see one keystroke's result: a panic
aborts the process, a propagated I/O error makes `run` return `Err` and `main`
exit with code 1, `Ok(false)` ends the session normally, `Ok(true)` continues. -/
inductive RunOutcome
  | continues (e : Editor)
  | exitOk
  | exitErr
  | aborted
  deriving DecidableEq

/-- One iteration of the `Editor::run` event loop as observed by `main`. -/
def runStep (e : Editor) (ev : KeyEvent) (wo : WriteOutcome) : RunOutcome :=
  match e.processKeypress ev wo with
  | .crash => .aborted
  | .ioErr => .exitErr
  | .ok e1 true => .continues e1
  | .ok _ false => .exitOk

/-- Reachability invariant: the cursor's absolute row stays on the document.
Established by `Editor.init` and preserved by every keystroke. -/
def Inv (e : Editor) : Prop := e.cy + e.rowOffset < lenLines e.buffer.text

instance (e : Editor) : Decidable (Inv e) := by unfold Inv; infer_instance

end Rim

namespace Rim

/-! ### Concrete states used by the claim-level theorems -/

/-- Insert mode on the document "ab\n" (ropey lines "ab\n" and ""), cursor at
column 0 of the empty last line. -/
def c1State : Editor :=
  { cx := 0, cy := 1, screenRows := 10, screenCols := 80,
    buffer := { text := "ab\n".toList, filename := none, dirty := false },
    rowOffset := 0, statusMsg := "", mode := Mode.insert }

/-- The state `c1State` reaches after one Backspace (a join). -/
def c1After : Editor :=
  { cx := 3, cy := 0, screenRows := 10, screenCols := 80,
    buffer := { text := "ab".toList, filename := none, dirty := true },
    rowOffset := 0, statusMsg := "", mode := Mode.insert }

/-- The two-line document "ab\ncd". -/
def c3Buffer : Buffer := { text := "ab\ncd".toList, filename := none, dirty := false }

/-- Insert mode on "ab\ncd", cursor at column 0 of line 1. -/
def c3State : Editor :=
  { cx := 0, cy := 1, screenRows := 10, screenCols := 80, buffer := c3Buffer,
    rowOffset := 0, statusMsg := "", mode := Mode.insert }

/-- The state `c3State` reaches after one Backspace (a join). -/
def c3After : Editor :=
  { cx := 3, cy := 0, screenRows := 10, screenCols := 80,
    buffer := { text := "abcd".toList, filename := none, dirty := true },
    rowOffset := 0, statusMsg := "", mode := Mode.insert }

/-- Command mode with a pending ":w" on a dirty buffer bound to a filename. -/
def c6State : Editor :=
  { cx := 0, cy := 0, screenRows := 10, screenCols := 80,
    buffer := { text := "x".toList, filename := some "f.txt", dirty := true },
    rowOffset := 0, statusMsg := "", mode := Mode.command (":w".toList) }

/-- A legal two-line state whose terminal reported a single row, so the text
area has zero rows (`screen_rows = rows - 1 = 0`). -/
def c7State : Editor :=
  { cx := 0, cy := 0, screenRows := 0, screenCols := 80,
    buffer := { text := "a\nb".toList, filename := none, dirty := false },
    rowOffset := 0, statusMsg := "", mode := Mode.normal }

/-- A small Normal-mode state used to witness the vertical invariant. -/
def c2Witness : Editor :=
  { cx := 0, cy := 0, screenRows := 5, screenCols := 80,
    buffer := { text := "a".toList, filename := none, dirty := false },
    rowOffset := 0, statusMsg := "m", mode := Mode.normal }

/-- The state `c2Witness` reaches after an unrecognized key. -/
def c2WitnessAfter : Editor := { c2Witness with statusMsg := "" }

/-- A seven-line Normal-mode state used to witness the half-page scroll. -/
def c4Witness : Editor :=
  { cx := 0, cy := 3, screenRows := 4, screenCols := 80,
    buffer := { text := "a\nb\nc\nd\ne\nf\ng".toList, filename := none, dirty := false },
    rowOffset := 0, statusMsg := "", mode := Mode.normal }

/-- A dirty unnamed buffer used to witness the quit semantics. -/
def c5Witness : Editor :=
  { cx := 0, cy := 0, screenRows := 10, screenCols := 80,
    buffer := { text := "x".toList, filename := none, dirty := true },
    rowOffset := 0, statusMsg := "", mode := Mode.normal }

/-- Command mode with a pending ":w" on a dirty buffer with no filename. -/
def c6Witness : Editor :=
  { cx := 0, cy := 0, screenRows := 10, screenCols := 80,
    buffer := { text := "x".toList, filename := none, dirty := true },
    rowOffset := 0, statusMsg := "", mode := Mode.command (":w".toList) }

/-- A two-line Normal-mode state with a positive text area. -/
def c7Witness : Editor :=
  { cx := 0, cy := 0, screenRows := 10, screenCols := 80,
    buffer := { text := "a\nb".toList, filename := none, dirty := false },
    rowOffset := 0, statusMsg := "", mode := Mode.normal }

/-- A buffer without a trailing newline, for the round-trip witness. -/
def c8Witness : Buffer := { text := "ab\ncd".toList, filename := some "f.txt", dirty := true }

/-- Visual mode with anchor (0, 0) and live cursor at column 2 of row 1,
the scenario given in the specification. -/
def c9Witness : Editor :=
  { cx := 2, cy := 1, screenRows := 10, screenCols := 80,
    buffer := { text := "abc\ndef".toList, filename := none, dirty := false },
    rowOffset := 0, statusMsg := "", mode := Mode.visual (0, 0) }

/-- A dirty unnamed buffer, for the failed-save witness. -/
def c10Witness : Editor :=
  { cx := 0, cy := 0, screenRows := 10, screenCols := 80,
    buffer := { text := "y".toList, filename := none, dirty := true },
    rowOffset := 0, statusMsg := "", mode := Mode.normal }

end Rim

namespace Rim

/-! ### Line-structure lemmas for the flat-text embedding -/

theorem lineStart_nil (r : Nat) : lineStart [] r = 0 := by cases r <;> rfl

theorem lineStart_zero (d : Doc) : lineStart d 0 = 0 := by cases d <;> rfl

theorem lineStart_cons_nl (rest : Doc) (r : Nat) :
    lineStart ('\n' :: rest) (r + 1) = 1 + lineStart rest r := by
  simp [lineStart]

theorem lineStart_cons_ne {c : Char} (hc : c ≠ '\n') (rest : Doc) (r : Nat) :
    lineStart (c :: rest) (r + 1) = 1 + lineStart rest (r + 1) := by
  simp [lineStart, hc]

theorem count_cons_nl (rest : Doc) : ('\n' :: rest).count '\n' = rest.count '\n' + 1 := by
  simp [List.count_cons]

theorem count_cons_ne {c : Char} (hc : c ≠ '\n') (rest : Doc) :
    (c :: rest).count '\n' = rest.count '\n' := by
  simp [List.count_cons, hc, Ne.symm hc]

theorem lenLines_pos (d : Doc) : 1 ≤ lenLines d := Nat.le_add_left 1 _

theorem lineStart_le_length (d : Doc) : ∀ r : Nat, lineStart d r ≤ d.length := by
  induction d with
  | nil => intro r; rw [lineStart_nil]; exact Nat.zero_le _
  | cons c rest ih =>
    intro r
    cases r with
    | zero => rw [lineStart_zero]; exact Nat.zero_le _
    | succ r =>
      simp only [List.length_cons]
      by_cases hc : c = '\n'
      · subst hc; rw [lineStart_cons_nl]; have := ih r; omega
      · rw [lineStart_cons_ne hc]; have := ih (r + 1); omega

theorem lineStart_mono (d : Doc) : ∀ {r s : Nat}, r ≤ s → lineStart d r ≤ lineStart d s := by
  induction d with
  | nil => intro r s _; rw [lineStart_nil, lineStart_nil]
  | cons c rest ih =>
    intro r s h
    cases r with
    | zero => rw [lineStart_zero]; exact Nat.zero_le _
    | succ r =>
      cases s with
      | zero => omega
      | succ s =>
        by_cases hc : c = '\n'
        · subst hc
          rw [lineStart_cons_nl, lineStart_cons_nl]
          have := ih (show r ≤ s by omega); omega
        · rw [lineStart_cons_ne hc, lineStart_cons_ne hc]
          have := ih (show r + 1 ≤ s + 1 by omega); omega

theorem lineStart_eq_length (d : Doc) : ∀ {r : Nat}, d.count '\n' < r → lineStart d r = d.length := by
  induction d with
  | nil => intro r _; rw [lineStart_nil]; rfl
  | cons c rest ih =>
    intro r h
    cases r with
    | zero => omega
    | succ r =>
      simp only [List.length_cons]
      by_cases hc : c = '\n'
      · subst hc
        rw [count_cons_nl] at h
        rw [lineStart_cons_nl, ih (show rest.count '\n' < r by omega)]
        omega
      · rw [count_cons_ne hc] at h
        rw [lineStart_cons_ne hc, ih (show rest.count '\n' < r + 1 by omega)]
        omega

theorem lineStart_pos (d : Doc) {r : Nat} (hd : d ≠ []) (hr : 1 ≤ r) : 1 ≤ lineStart d r := by
  cases d with
  | nil => exact absurd rfl hd
  | cons c rest =>
    cases r with
    | zero => omega
    | succ r =>
      by_cases hc : c = '\n'
      · subst hc; rw [lineStart_cons_nl]; omega
      · rw [lineStart_cons_ne hc]; omega

theorem lineStart_add_lineLen (d : Doc) (r : Nat) :
    lineStart d r + lineLen d r = lineStart d (r + 1) := by
  have := lineStart_mono d (Nat.le_add_right r 1)
  unfold lineLen
  omega

theorem no_newline_in_last_line (d : Doc) :
    ∀ p : Nat, lineStart d (d.count '\n') ≤ p → p < d.length → d.getD p ' ' ≠ '\n' := by
  induction d with
  | nil => intro p _ h2; simp at h2
  | cons c rest ih =>
    intro p h1 h2
    simp only [List.length_cons] at h2
    by_cases hc : c = '\n'
    · subst hc
      rw [count_cons_nl, lineStart_cons_nl] at h1
      cases p with
      | zero => exact absurd h1 (by omega)
      | succ p =>
        rw [List.getD_cons_succ]
        exact ih p (by omega) (by omega)
    · rw [count_cons_ne hc] at h1
      cases hn : rest.count '\n' with
      | zero =>
        cases p with
        | zero => rw [List.getD_cons_zero]; exact hc
        | succ p =>
          rw [List.getD_cons_succ]
          have hmem : ¬ '\n' ∈ rest := by rw [← List.count_eq_zero]; exact hn
          have hplen : p < rest.length := by omega
          rw [List.getD_eq_getElem rest ' ' hplen]
          intro hcontra
          exact hmem (hcontra ▸ List.getElem_mem hplen)
      | succ m =>
        rw [hn] at h1
        rw [lineStart_cons_ne hc] at h1
        cases p with
        | zero => exact absurd h1 (by omega)
        | succ p =>
          rw [List.getD_cons_succ]
          exact ih p (by rw [hn]; omega) (by omega)

theorem last_line_start_lt_length (d : Doc) :
    d ≠ [] → d.getLast? ≠ some '\n' → lineStart d (d.count '\n') < d.length := by
  induction d with
  | nil => intro h _; exact absurd rfl h
  | cons c rest ih =>
    intro _ hlast
    cases rest with
    | nil =>
      have hc : c ≠ '\n' := by simpa using hlast
      simp [count_cons_ne hc, lineStart_zero]
    | cons x xs =>
      have hlast2 : (x :: xs).getLast? ≠ some '\n' := by
        simpa [List.getLast?_cons_cons] using hlast
      have hih := ih (by simp) hlast2
      simp only [List.length_cons] at hih ⊢
      by_cases hc : c = '\n'
      · subst hc
        rw [count_cons_nl, lineStart_cons_nl]
        omega
      · rw [count_cons_ne hc]
        cases hn : (x :: xs).count '\n' with
        | zero => rw [lineStart_zero]; omega
        | succ m =>
          rw [hn] at hih
          rw [lineStart_cons_ne hc]
          omega

theorem count_cons_general (a : Char) (l : Doc) :
    (a :: l).count '\n' = l.count '\n' + if a = '\n' then 1 else 0 := by
  by_cases hc : a = '\n'
  · subst hc; rw [count_cons_nl, if_pos rfl]
  · rw [count_cons_ne hc, if_neg hc]; omega

theorem count_insert (d : Doc) (i : Nat) (c : Char) :
    (d.take i ++ c :: d.drop i).count '\n' = d.count '\n' + if c = '\n' then 1 else 0 := by
  have h : (d.take i).count '\n' + (d.drop i).count '\n' = d.count '\n' := by
    rw [← List.count_append, List.take_append_drop]
  rw [List.count_append, count_cons_general]
  omega

theorem count_remove (d : Doc) (p : Nat) (h : p < d.length) :
    d.count '\n' = (d.take p ++ d.drop (p + 1)).count '\n' + if d.getD p ' ' = '\n' then 1 else 0 := by
  have hd : d.take p ++ d[p] :: d.drop (p + 1) = d := by
    rw [← List.drop_eq_getElem_cons h, List.take_append_drop]
  have hgd : d.getD p ' ' = d[p] := List.getD_eq_getElem d ' ' h
  have h1 : d.count '\n' = (d.take p).count '\n' + ((d[p] :: d.drop (p + 1)).count '\n') := by
    rw [← List.count_append, hd]
  rw [hgd, h1, List.count_append, count_cons_general]
  omega

theorem row_lt_count_of_newline (d : Doc) {p f : Nat} (hp : p < d.length)
    (hnl : d.getD p ' ' = '\n') (hf : lineStart d f ≤ p) : f < d.count '\n' := by
  by_contra hge
  push_neg at hge
  have h1 : lineStart d (d.count '\n') ≤ lineStart d f := lineStart_mono d hge
  exact no_newline_in_last_line d p (le_trans h1 hf) hp hnl

end Rim

namespace Rim

/-! ### Component facts about the two clamps -/

theorem clamp_cy (e : Editor) : e.clampCursorToLine.cy = e.cy := rfl

theorem clamp_rowOffset (e : Editor) : e.clampCursorToLine.rowOffset = e.rowOffset := rfl

theorem clamp_buffer (e : Editor) : e.clampCursorToLine.buffer = e.buffer := rfl

theorem clamp_mode (e : Editor) : e.clampCursorToLine.mode = e.mode := rfl

theorem clamp_screenRows (e : Editor) : e.clampCursorToLine.screenRows = e.screenRows := rfl

theorem scrollCheck_buffer (e : Editor) : e.scrollCheck.buffer = e.buffer := rfl

theorem scrollCheck_mode (e : Editor) : e.scrollCheck.mode = e.mode := rfl

theorem scrollCheck_cx (e : Editor) : e.scrollCheck.cx = e.cx := rfl

theorem scrollCheck_screenRows (e : Editor) : e.scrollCheck.screenRows = e.screenRows := rfl

/-- `scroll_check` establishes the vertical invariant from any input state. -/
theorem scrollCheck_inv (e : Editor) : Inv e.scrollCheck := by
  obtain ⟨cx, cy, sr, sc, buf, ro, msg, mode⟩ := e
  unfold Inv Editor.scrollCheck Buffer.lenLines
  dsimp only
  have hL := lenLines_pos buf.text
  split_ifs <;> omega

/-- On a state already satisfying the invariant, `scroll_check` is the identity. -/
theorem scrollCheck_eq_self {e : Editor} (h : Inv e) : e.scrollCheck = e := by
  obtain ⟨cx, cy, sr, sc, buf, ro, msg, mode⟩ := e
  unfold Inv at h
  dsimp only at h
  unfold Editor.scrollCheck Buffer.lenLines
  dsimp only
  rw [if_neg (by omega), Nat.min_eq_left (by omega)]

/-- Clamp followed by scroll-check moves neither the cursor row nor the scroll
offset on an invariant-satisfying state. -/
theorem clampScroll_fields {e : Editor} (h : Inv e) :
    e.clampCursorToLine.scrollCheck.cy = e.cy ∧
    e.clampCursorToLine.scrollCheck.rowOffset = e.rowOffset ∧
    e.clampCursorToLine.scrollCheck.buffer = e.buffer ∧
    e.clampCursorToLine.scrollCheck.mode = e.mode := by
  have hInv2 : Inv e.clampCursorToLine := by
    unfold Inv at h ⊢
    rw [clamp_cy, clamp_rowOffset, clamp_buffer]
    exact h
  rw [scrollCheck_eq_self hInv2]
  exact ⟨clamp_cy e, clamp_rowOffset e, clamp_buffer e, clamp_mode e⟩

/-! ### Shape of the Normal/Visual handlers -/

theorem processNormal_shape {e : Editor} {ev : KeyEvent} {e1 : Editor} {c : Bool}
    (h : e.processNormalKeypress ev = .ok e1 c) :
    c = true ∧ ∃ x : Editor, e1 = x.clampCursorToLine.scrollCheck := by
  unfold Editor.processNormalKeypress at h
  split at h
  · simp at h
  · rw [StepResult.ok.injEq] at h
    exact ⟨h.2.symm, _, h.1.symm⟩

theorem processVisual_shape {e : Editor} {ev : KeyEvent} {e1 : Editor} {c : Bool}
    (h : e.processVisualKeypress ev = .ok e1 c) :
    c = true ∧ ∃ x : Editor, e1 = x.clampCursorToLine.scrollCheck := by
  unfold Editor.processVisualKeypress at h
  split at h
  · simp at h
  · rw [StepResult.ok.injEq] at h
    exact ⟨h.2.symm, _, h.1.symm⟩

theorem inv_after_normal {e : Editor} {ev : KeyEvent} {e1 : Editor} {c : Bool}
    (h : e.processNormalKeypress ev = .ok e1 c) : Inv e1 := by
  obtain ⟨-, x, hx⟩ := processNormal_shape h
  rw [hx]
  exact scrollCheck_inv _

theorem inv_after_visual {e : Editor} {ev : KeyEvent} {e1 : Editor} {c : Bool}
    (h : e.processVisualKeypress ev = .ok e1 c) : Inv e1 := by
  obtain ⟨-, x, hx⟩ := processVisual_shape h
  rw [hx]
  exact scrollCheck_inv _

end Rim

namespace Rim

/-! ### Effect of the buffer mutations on the text -/

theorem insertChar_some {b : Buffer} {line col : Nat} {c : Char} {b1 : Buffer}
    (h : b.insertChar line col c = some b1) :
    line ≤ lenLines b.text ∧ lineStart b.text line + col ≤ b.text.length ∧
    b1.text = b.text.take (lineStart b.text line + col) ++ c :: b.text.drop (lineStart b.text line + col) ∧
    b1.filename = b.filename := by
  unfold Buffer.insertChar at h
  split at h
  · simp at h
  · next idx hidx =>
    split at h
    · simp at h
    · next t ht =>
      rw [Option.some.injEq] at h
      subst h
      unfold lineToChar at hidx
      split at hidx
      · next hle =>
        rw [Option.some.injEq] at hidx
        subst hidx
        unfold insertAt at ht
        split at ht
        · next hlen =>
          rw [Option.some.injEq] at ht
          subst ht
          exact ⟨hle, hlen, rfl, rfl⟩
        · simp at ht
      · simp at hidx

theorem insertChar_lenLines {b : Buffer} {line col : Nat} {c : Char} {b1 : Buffer}
    (h : b.insertChar line col c = some b1) :
    lenLines b1.text = lenLines b.text + if c = '\n' then 1 else 0 := by
  obtain ⟨-, -, ht, -⟩ := insertChar_some h
  rw [ht]
  unfold lenLines
  rw [count_insert]
  omega

theorem insertNewLine_eq_insertChar (b : Buffer) (line col : Nat) :
    b.insertNewLine line col = b.insertChar line col '\n' := rfl

theorem deleteChar_some {b : Buffer} {line col : Nat} {b1 : Buffer} (hcol : 0 < col)
    (h : b.deleteChar line col = some b1) :
    line ≤ lenLines b.text ∧ lineStart b.text line + col - 1 < b.text.length ∧
    b1.text = b.text.take (lineStart b.text line + col - 1) ++
      b.text.drop (lineStart b.text line + col - 1 + 1) ∧
    b1.filename = b.filename := by
  unfold Buffer.deleteChar at h
  rw [if_pos hcol] at h
  split at h
  · simp at h
  · next idx hidx =>
    split at h
    · simp at h
    · next t ht =>
      rw [Option.some.injEq] at h
      subst h
      unfold lineToChar at hidx
      split at hidx
      · next hle =>
        rw [Option.some.injEq] at hidx
        subst hidx
        unfold removeAt at ht
        split at ht
        · next hlen =>
          rw [Option.some.injEq] at ht
          subst ht
          exact ⟨hle, hlen, rfl, rfl⟩
        · simp at ht
      · simp at hidx

theorem deleteChar_lenLines {b : Buffer} {line col : Nat} {b1 : Buffer} (hcol : 0 < col)
    (h : b.deleteChar line col = some b1) :
    lenLines b.text ≤ lenLines b1.text + 1 ∧
    (lenLines b1.text < lenLines b.text → line < lenLines b.text - 1) := by
  obtain ⟨-, hlt, ht, -⟩ := deleteChar_some hcol h
  have hcr := count_remove b.text _ hlt
  rw [← ht] at hcr
  constructor
  · unfold lenLines
    split at hcr <;> omega
  · intro hdec
    unfold lenLines at hdec
    have hnl : b.text.getD (lineStart b.text line + col - 1) ' ' = '\n' := by
      by_contra hne
      rw [if_neg hne] at hcr
      omega
    have := @row_lt_count_of_newline b.text (lineStart b.text line + col - 1) line hlt hnl (by omega)
    unfold lenLines
    omega

theorem join_some {b : Buffer} {line : Nat} {b1 : Buffer} {ret : Nat} (hline : line ≠ 0)
    (h : b.joinWithPreviousLine line = some (b1, ret)) :
    line - 1 < lenLines b.text ∧ line ≤ lenLines b.text ∧
    ret = lineLen b.text (line - 1) ∧
    1 ≤ lineStart b.text line ∧ lineStart b.text line - 1 < b.text.length ∧
    b1.text = b.text.take (lineStart b.text line - 1) ++
      b.text.drop (lineStart b.text line - 1 + 1) ∧
    b1.filename = b.filename ∧
    lenLines b.text ≤ lenLines b1.text + 1 := by
  unfold Buffer.joinWithPreviousLine at h
  rw [if_neg hline] at h
  split at h
  · simp at h
  · next prevLen hprev =>
    split at h
    · simp at h
    · next pEnd hpEnd =>
      split at h
      · simp at h
      · next i hi =>
        split at h
        · simp at h
        · next t ht =>
          rw [Option.some.injEq, Prod.mk.injEq] at h
          obtain ⟨hb1, hret⟩ := h
          subst hb1
          subst hret
          unfold lineLenChecked at hprev
          split at hprev
          · next hlt1 =>
            rw [Option.some.injEq] at hprev
            subst hprev
            unfold lineToChar at hpEnd
            split at hpEnd
            · next hle =>
              rw [Option.some.injEq] at hpEnd
              subst hpEnd
              unfold csub at hi
              split at hi
              · next hone =>
                rw [Option.some.injEq] at hi
                subst hi
                unfold removeAt at ht
                split at ht
                · next hlen =>
                  rw [Option.some.injEq] at ht
                  subst ht
                  refine ⟨hlt1, hle, rfl, hone, hlen, rfl, rfl, ?_⟩
                  have hcr := count_remove b.text _ hlen
                  unfold lenLines
                  split at hcr <;> (dsimp only; omega)
                · simp at ht
              · simp at hi
            · simp at hpEnd
          · simp at hprev

end Rim

namespace Rim

/-! ### Invariant preservation through the Insert-mode operations -/

theorem insertCharE_fields {e : Editor} {ch : Char} {e1 : Editor}
    (h : e.insertCharE ch = some e1) :
    e1.cy = e.cy ∧ e1.rowOffset = e.rowOffset ∧ e1.mode = e.mode ∧
    e1.screenRows = e.screenRows ∧ lenLines e.buffer.text ≤ lenLines e1.buffer.text := by
  unfold Editor.insertCharE at h
  split at h
  · simp at h
  · next b hb =>
    rw [Option.some.injEq] at h
    subst h
    have hlen := insertChar_lenLines hb
    exact ⟨rfl, rfl, rfl, rfl, by dsimp only; omega⟩

theorem insertNewLineE_fields {e : Editor} {e1 : Editor}
    (h : e.insertNewLineE = some e1) :
    e1.cy + e1.rowOffset = e.cy + e.rowOffset + 1 ∧ e1.mode = e.mode ∧
    e1.screenRows = e.screenRows ∧
    lenLines e1.buffer.text = lenLines e.buffer.text + 1 := by
  unfold Editor.insertNewLineE at h
  split at h
  · simp at h
  · next b hb =>
    rw [insertNewLine_eq_insertChar] at hb
    have hlen := insertChar_lenLines hb
    rw [if_pos rfl] at hlen
    split at h
    · simp at h
    · split at h <;> (rw [Option.some.injEq] at h; subst h) <;>
        exact ⟨by dsimp only; omega, rfl, rfl, by dsimp only; omega⟩

theorem deleteCharE_fields {e : Editor} {e1 : Editor} (hInv : Inv e)
    (h : e.deleteCharE = some e1) :
    Inv e1 ∧ e1.mode = e.mode ∧ e1.screenRows = e.screenRows := by
  have hL1 := lenLines_pos e.buffer.text
  unfold Editor.deleteCharE at h
  split at h
  · -- cx = 0: join with previous line, or no-op at the very start
    split at h
    · next hrow =>
      split at h
      · simp at h
      · next b prevLen hjoin =>
        obtain ⟨-, -, -, -, -, -, -, hlen⟩ := join_some (by omega) hjoin
        have hLb := lenLines_pos b.text
        unfold Inv at hInv
        split at h <;> (rw [Option.some.injEq] at h; subst h) <;>
          exact ⟨by unfold Inv; dsimp only; omega, rfl, rfl⟩
    · rw [Option.some.injEq] at h
      subst h
      exact ⟨hInv, rfl, rfl⟩
  · next hcx =>
    -- cx > 0: clamp, then remove the char to the left if any
    unfold Inv at hInv
    split at h
    · -- cx was past the line end and is clamped to the line length
      split at h
      · next hpos =>
        split at h
        · simp at h
        · next b hdel =>
          rw [Option.some.injEq] at h
          subst h
          have hd := deleteChar_lenLines hpos hdel
          refine ⟨?_, rfl, rfl⟩
          unfold Inv
          dsimp only
          by_cases hlt : lenLines b.text < lenLines e.buffer.text
          · have := hd.2 hlt; omega
          · omega
      · rw [Option.some.injEq] at h
        subst h
        exact ⟨by unfold Inv; dsimp only; omega, rfl, rfl⟩
    · split at h
      · simp at h
      · next b hdel =>
        rw [Option.some.injEq] at h
        subst h
        have hd := deleteChar_lenLines (by omega) hdel
        refine ⟨?_, rfl, rfl⟩
        unfold Inv
        dsimp only
        by_cases hlt : lenLines b.text < lenLines e.buffer.text
        · have := hd.2 hlt; omega
        · omega

theorem inv_after_insert {e : Editor} {ev : KeyEvent} {e1 : Editor} {c : Bool}
    (hInv : Inv e) (h : e.processInsertKeypress ev = .ok e1 c) : Inv e1 := by
  have hInv0 : Inv { e with statusMsg := "" } := hInv
  unfold Editor.processInsertKeypress at h
  split at h
  · -- Escape: back to Normal and re-clamp (cx only)
    rw [StepResult.ok.injEq] at h
    obtain ⟨h1, -⟩ := h
    subst h1
    unfold Inv at hInv ⊢
    rw [clamp_cy, clamp_rowOffset, clamp_buffer]
    exact hInv
  · -- typing a character
    split at h
    · simp at h
    · next e2 he2 =>
      rw [StepResult.ok.injEq] at h
      obtain ⟨h1, -⟩ := h
      subst h1
      obtain ⟨hcy, hro, -, -, hlen⟩ := insertCharE_fields he2
      unfold Inv at hInv ⊢
      dsimp only at hcy hro hlen
      omega
  · -- Enter
    split at h
    · simp at h
    · next e2 he2 =>
      rw [StepResult.ok.injEq] at h
      obtain ⟨h1, -⟩ := h
      subst h1
      obtain ⟨hcyro, -, -, hlen⟩ := insertNewLineE_fields he2
      unfold Inv at hInv ⊢
      dsimp only at hcyro hlen
      omega
  · -- Backspace
    split at h
    · simp at h
    · next e2 he2 =>
      rw [StepResult.ok.injEq] at h
      obtain ⟨h1, -⟩ := h
      subst h1
      exact (deleteCharE_fields hInv0 he2).1
  · -- any other key: only the status message changes
    rw [StepResult.ok.injEq] at h
    obtain ⟨h1, -⟩ := h
    subst h1
    exact hInv

end Rim

namespace Rim

/-! ### Command execution preserves the cursor and the document -/

theorem save_fields {b : Buffer} {wo : WriteOutcome} {b1 : Buffer} {s : Bool}
    (h : b.save wo = .ok (b1, s)) :
    b1.text = b.text ∧ b1.filename = b.filename ∧
    (s = true → b.filename ≠ none) := by
  unfold Buffer.save at h
  split at h
  · next f hf =>
    split at h
    · rw [Except.ok.injEq, Prod.mk.injEq] at h
      obtain ⟨hb, -⟩ := h
      subst hb
      exact ⟨rfl, rfl, fun _ => by rw [hf]; simp⟩
    · simp at h
  · rw [Except.ok.injEq, Prod.mk.injEq] at h
    obtain ⟨hb, hs⟩ := h
    subst hb
    exact ⟨rfl, rfl, fun ht => by rw [ht] at hs; simp at hs⟩

theorem rebindFilename_text (b : Buffer) (args : List (List Char)) :
    (rebindFilename b args).text = b.text := by
  unfold rebindFilename
  split <;> rfl

theorem executeCommand_fields {e : Editor} {cmd : List Char} {wo : WriteOutcome}
    {e1 : Editor} {c : Bool} (h : e.executeCommand cmd wo = .ok e1 c) :
    e1.cy = e.cy ∧ e1.rowOffset = e.rowOffset ∧ e1.buffer.text = e.buffer.text ∧
    e1.screenRows = e.screenRows ∧ e1.mode = e.mode := by
  unfold Editor.executeCommand at h
  repeat' split at h
  all_goals
    first
    | exact StepResult.noConfusion h
    | (simp only [StepResult.ok.injEq] at h
       obtain ⟨h1, -⟩ := h
       subst h1
       refine ⟨rfl, rfl, ?_, rfl, rfl⟩
       first
       | rfl
       | (dsimp only
          rw [(save_fields (by assumption)).1, rebindFilename_text]))

theorem inv_after_command {e : Editor} {ev : KeyEvent} {wo : WriteOutcome}
    {e1 : Editor} {c : Bool} (hInv : Inv e)
    (h : e.processCommandKeypress ev wo = .ok e1 c) : Inv e1 := by
  unfold Editor.processCommandKeypress at h
  split at h
  · split at h
    · -- Enter: execute the accumulated command
      obtain ⟨hcy, hro, htext, -, -⟩ := executeCommand_fields h
      unfold Inv at hInv ⊢
      rw [hcy, hro, htext]
      exact hInv
    · rw [StepResult.ok.injEq] at h
      obtain ⟨h1, -⟩ := h; subst h1; exact hInv
    · rw [StepResult.ok.injEq] at h
      obtain ⟨h1, -⟩ := h; subst h1; exact hInv
    · split at h <;>
        (rw [StepResult.ok.injEq] at h; obtain ⟨h1, -⟩ := h; subst h1; exact hInv)
    · rw [StepResult.ok.injEq] at h
      obtain ⟨h1, -⟩ := h; subst h1; exact hInv
  · rw [StepResult.ok.injEq] at h
    obtain ⟨h1, -⟩ := h; subst h1; exact hInv

/-- Any keystroke handled without a panic or I/O error leaves the cursor's
absolute row on the document. -/
theorem inv_preserved_step {e : Editor} {ev : KeyEvent} {wo : WriteOutcome}
    {e1 : Editor} {c : Bool} (hInv : Inv e)
    (h : e.processKeypress ev wo = .ok e1 c) : Inv e1 := by
  unfold Editor.processKeypress at h
  split at h
  · exact inv_after_normal h
  · exact inv_after_insert hInv h
  · exact inv_after_visual h
  · exact inv_after_command hInv h

end Rim

namespace Rim

/-! ### Totality: no panic on invariant states with at least one screen row -/

theorem csub_eq_some {a b : Nat} (h : b ≤ a) : csub a b = some (a - b) := by
  unfold csub
  rw [if_pos h]

theorem currentLineLen_eq {e : Editor} (h : e.cy + e.rowOffset < lenLines e.buffer.text) :
    e.currentLineLen = lineLen e.buffer.text (e.cy + e.rowOffset) := by
  unfold Editor.currentLineLen Buffer.lenLines
  rw [if_pos h]

set_option maxHeartbeats 1000000 in
theorem normalMove_total {e : Editor} (hInv : Inv e) (hsr : 1 ≤ e.screenRows) (ev : KeyEvent) :
    e.normalMove ev ≠ none := by
  have hro : e.rowOffset ≤ min (e.rowOffset + e.screenRows / 2) (e.buffer.lenLines - 1) := by
    unfold Inv at hInv
    unfold Buffer.lenLines
    omega
  unfold Editor.normalMove
  simp only [csub_eq_some hsr, csub_eq_some hro]
  split <;> first | (simp; done) | (split <;> simp)

set_option maxHeartbeats 1000000 in
theorem visualMove_total {e : Editor} (hsr : 1 ≤ e.screenRows) (ev : KeyEvent) :
    e.visualMove ev ≠ none := by
  unfold Editor.visualMove
  simp only [csub_eq_some hsr]
  split <;> first | (simp; done) | (split <;> simp)

theorem insertChar_total {b : Buffer} {line col : Nat} (c : Char)
    (hline : line < lenLines b.text) (hcol : col ≤ lineLen b.text line) :
    b.insertChar line col c ≠ none := by
  have h1 : lineStart b.text line + col ≤ b.text.length := by
    have h2 := lineStart_add_lineLen b.text line
    have h3 := lineStart_le_length b.text (line + 1)
    omega
  unfold Buffer.insertChar
  rw [show lineToChar b.text line = some (lineStart b.text line) from by
        unfold lineToChar; rw [if_pos (by omega)]]
  dsimp only
  unfold insertAt
  rw [if_pos h1]
  simp

theorem deleteChar_total {b : Buffer} {line col : Nat}
    (hline : line < lenLines b.text) (hcol1 : 0 < col) (hcol : col ≤ lineLen b.text line) :
    b.deleteChar line col ≠ none := by
  have h1 : lineStart b.text line + col - 1 < b.text.length := by
    have h2 := lineStart_add_lineLen b.text line
    have h3 := lineStart_le_length b.text (line + 1)
    omega
  unfold Buffer.deleteChar
  rw [if_pos hcol1]
  rw [show lineToChar b.text line = some (lineStart b.text line) from by
        unfold lineToChar; rw [if_pos (by omega)]]
  dsimp only
  unfold removeAt
  rw [if_pos h1]
  simp

theorem join_total {b : Buffer} {line : Nat} (h1 : 1 ≤ line) (h2 : line < lenLines b.text) :
    b.joinWithPreviousLine line ≠ none := by
  have hne : b.text ≠ [] := by
    intro hnil
    unfold lenLines at h2
    rw [hnil] at h2
    simp [List.count_nil] at h2
    omega
  have hpos : 1 ≤ lineStart b.text line := lineStart_pos b.text hne h1
  have hlen : lineStart b.text line - 1 < b.text.length := by
    have h3 := lineStart_le_length b.text line
    have h4 : 1 ≤ b.text.length := by
      cases hb : b.text with
      | nil => exact absurd hb hne
      | cons x xs => simp
    omega
  unfold Buffer.joinWithPreviousLine
  rw [if_neg (by omega)]
  rw [show lineLenChecked b.text (line - 1) = some (lineLen b.text (line - 1)) from by
        unfold lineLenChecked; rw [if_pos (by omega)]]
  dsimp only
  rw [show lineToChar b.text line = some (lineStart b.text line) from by
        unfold lineToChar; rw [if_pos (by omega)]]
  dsimp only
  rw [csub_eq_some hpos]
  dsimp only
  unfold removeAt
  rw [if_pos hlen]
  simp

theorem insertCharE_total {e : Editor} (hInv : Inv e) (c : Char) :
    e.insertCharE c ≠ none := by
  have hInv' := hInv
  unfold Inv at hInv'
  have hc := currentLineLen_eq hInv'
  have hclamp : (if e.cx > e.currentLineLen then e.currentLineLen else e.cx) ≤
      lineLen e.buffer.text (e.cy + e.rowOffset) := by
    rw [hc]
    split <;> omega
  unfold Editor.insertCharE
  split
  · next heq => exact absurd heq (insertChar_total c hInv' hclamp)
  · simp

theorem insertNewLineE_total {e : Editor} (hInv : Inv e) (hsr : 1 ≤ e.screenRows) :
    e.insertNewLineE ≠ none := by
  have hInv' := hInv
  unfold Inv at hInv'
  have hc := currentLineLen_eq hInv'
  have hclamp : (if e.cx > e.currentLineLen then e.currentLineLen else e.cx) ≤
      lineLen e.buffer.text (e.cy + e.rowOffset) := by
    rw [hc]
    split <;> omega
  unfold Editor.insertNewLineE
  split
  · next heq =>
    rw [insertNewLine_eq_insertChar] at heq
    exact absurd heq (insertChar_total '\n' hInv' hclamp)
  · rw [csub_eq_some hsr]
    dsimp only
    split <;> simp

theorem deleteCharE_total {e : Editor} (hInv : Inv e) : e.deleteCharE ≠ none := by
  have hInv' := hInv
  unfold Inv at hInv'
  unfold Editor.deleteCharE
  split
  · -- cx = 0
    split
    · -- join with the previous line
      split
      · next heq => exact absurd heq (join_total (by omega) hInv')
      · split <;> simp
    · simp
  · next hcx =>
    have hc := currentLineLen_eq hInv'
    split
    · -- cx was past the end: clamped to the line length
      split
      · next hpos =>
        split
        · next heq =>
          exact absurd heq (deleteChar_total hInv' hpos (le_of_eq hc))
        · simp
      · simp
    · next hle =>
      split
      · next heq =>
        exact absurd heq (deleteChar_total hInv' (by omega) (by rw [← hc]; omega))
      · simp

theorem save_true_filename {b : Buffer} {wo : WriteOutcome} {b1 : Buffer}
    (h : b.save wo = .ok (b1, true)) : ∃ f, b1.filename = some f := by
  unfold Buffer.save at h
  split at h
  · next f hf =>
    split at h
    · rw [Except.ok.injEq, Prod.mk.injEq] at h
      obtain ⟨hb, -⟩ := h
      subst hb
      exact ⟨f, by dsimp only; exact hf⟩
    · simp at h
  · rw [Except.ok.injEq, Prod.mk.injEq] at h
    obtain ⟨-, hs⟩ := h
    simp at hs

theorem clearStatus_inv {e : Editor} {ev : KeyEvent} (h : Inv e) :
    Inv (e.clearStatusUnlessColon ev) := by
  unfold Editor.clearStatusUnlessColon
  split
  · exact h
  · exact h

theorem clearStatus_screenRows (e : Editor) (ev : KeyEvent) :
    (e.clearStatusUnlessColon ev).screenRows = e.screenRows := by
  unfold Editor.clearStatusUnlessColon
  split <;> rfl

theorem processNormal_no_crash {e : Editor} (hInv : Inv e) (hsr : 1 ≤ e.screenRows)
    (ev : KeyEvent) : e.processNormalKeypress ev ≠ .crash := by
  unfold Editor.processNormalKeypress
  split
  · next heq =>
    exact absurd heq
      (normalMove_total (clearStatus_inv hInv) (by rw [clearStatus_screenRows]; exact hsr) ev)
  · simp

theorem processVisual_no_crash {e : Editor} (hsr : 1 ≤ e.screenRows)
    (ev : KeyEvent) : e.processVisualKeypress ev ≠ .crash := by
  unfold Editor.processVisualKeypress
  split
  · next heq =>
    exact absurd heq (visualMove_total (e := { e with statusMsg := "" }) hsr ev)
  · simp

theorem processInsert_no_crash {e : Editor} (hInv : Inv e) (hsr : 1 ≤ e.screenRows)
    (ev : KeyEvent) : e.processInsertKeypress ev ≠ .crash := by
  have hInv0 : Inv { e with statusMsg := "" } := hInv
  unfold Editor.processInsertKeypress
  split
  · simp
  · split
    · next heq => exact absurd heq (insertCharE_total hInv0 _)
    · simp
  · split
    · next heq => exact absurd heq (insertNewLineE_total hInv0 hsr)
    · simp
  · split
    · next heq => exact absurd heq (deleteCharE_total hInv0)
    · simp
  · simp

theorem executeCommand_no_crash (e : Editor) (cmd : List Char) (wo : WriteOutcome) :
    e.executeCommand cmd wo ≠ .crash := by
  unfold Editor.executeCommand
  repeat' split
  all_goals try simp
  all_goals
    (rename_i hsave hx hfn
     obtain ⟨f, hf⟩ := save_true_filename hsave
     rw [hf] at hfn
     exact Option.noConfusion hfn)

theorem processCommand_no_crash (e : Editor) (ev : KeyEvent) (wo : WriteOutcome) :
    e.processCommandKeypress ev wo ≠ .crash := by
  unfold Editor.processCommandKeypress
  split
  · split
    · exact executeCommand_no_crash _ _ _
    · simp
    · simp
    · split <;> simp
    · simp
  · simp

/-- The keystroke handler cannot panic from an invariant-satisfying state as
long as the text area has at least one row. -/
theorem processKeypress_no_crash {e : Editor} (hInv : Inv e) (hsr : 1 ≤ e.screenRows)
    (ev : KeyEvent) (wo : WriteOutcome) : e.processKeypress ev wo ≠ .crash := by
  unfold Editor.processKeypress
  split
  · exact processNormal_no_crash hInv hsr ev
  · exact processInsert_no_crash hInv hsr ev
  · exact processVisual_no_crash hsr ev
  · exact processCommand_no_crash e ev wo

end Rim

namespace Rim

/-! ### Claim-level theorems -/

/-- C1 (code bug): the claimed cursor-column bounds fail. In Insert mode a
Backspace at column 0 of the empty last line of "ab\n" joins the lines and
sets `cx := rope.line(0).len_chars() = 3` (the line break is counted), leaving
`cx = 3` on the 2-character line "ab" — beyond the claimed Insert bound
`cx ≤ lineLength`, under any reading of line length. -/
theorem claim1_cx_exceeds_line_length_after_join :
    Editor.processKeypress c1State ⟨KeyCode.backspace, false⟩ WriteOutcome.success
      = StepResult.ok c1After true ∧
    c1After.mode = Mode.insert ∧
    c1After.cy + c1After.rowOffset = 0 ∧
    lineLen c1After.buffer.text (c1After.cy + c1After.rowOffset) = 2 ∧
    c1After.cx = 3 ∧
    ¬ c1After.cx ≤ lineLen c1After.buffer.text (c1After.cy + c1After.rowOffset) := by
  decide

/-- C2 (confirmed): the initial state satisfies the vertical invariant, and
every keystroke that completes normally leaves `cy + rowOffset` and
`rowOffset` within `[0, lineCount - 1]`. -/
theorem claim2_vertical_invariant :
    (∀ rows cols b e0, Editor.init rows cols b = some e0 →
        e0.cy + e0.rowOffset ≤ lenLines e0.buffer.text - 1 ∧
        e0.rowOffset ≤ lenLines e0.buffer.text - 1) ∧
    (∀ (e : Editor) (ev : KeyEvent) (wo : WriteOutcome) (e1 : Editor) (c : Bool),
        Inv e → e.processKeypress ev wo = .ok e1 c →
        e1.cy + e1.rowOffset ≤ lenLines e1.buffer.text - 1 ∧
        e1.rowOffset ≤ lenLines e1.buffer.text - 1) := by
  constructor
  · intro rows cols b e0 hinit
    unfold Editor.init at hinit
    split at hinit
    · simp at hinit
    · rw [Option.some.injEq] at hinit
      subst hinit
      have := lenLines_pos b.text
      dsimp only
      omega
  · intro e ev wo e1 c hInv h
    have h1 := inv_preserved_step hInv h
    unfold Inv at h1
    have := lenLines_pos e1.buffer.text
    omega

/-- C2 witness: the preservation part applied to a concrete one-line state and
an unrecognized key. -/
theorem claim2_witness :
    c2WitnessAfter.cy + c2WitnessAfter.rowOffset ≤ lenLines c2WitnessAfter.buffer.text - 1 ∧
    c2WitnessAfter.rowOffset ≤ lenLines c2WitnessAfter.buffer.text - 1 :=
  claim2_vertical_invariant.2 c2Witness ⟨KeyCode.other, false⟩ WriteOutcome.success
    c2WitnessAfter true (by decide) (by decide)

/-- C3 (code bug): `join_with_previous_line 1` on "ab\ncd" removes the break
but returns 3 — `rope.line(0).len_chars()`, which counts the break — instead
of 2, the length of the previous line "ab"; the Insert-mode Backspace
therefore parks the cursor one column past the end of the joined previous
line. The `row = 0` no-op returning 0 does hold. -/
theorem claim3_join_returns_break_inclusive_length :
    Buffer.joinWithPreviousLine c3Buffer 1 =
      some ({ text := "abcd".toList, filename := none, dirty := true }, 3) ∧
    ("ab".toList).length = 2 ∧
    Buffer.joinWithPreviousLine c3Buffer 0 = some (c3Buffer, 0) ∧
    Editor.processKeypress c3State ⟨KeyCode.backspace, false⟩ WriteOutcome.success
      = StepResult.ok c3After true ∧
    c3After.cx = 3 := by
  decide

/-- C7 counterexample: with `screenRows = 0` (a one-row terminal) the state
`c7State` is otherwise legal (`Inv` holds), yet pressing `j` computes
`screen_rows - 1` and panics. -/
theorem claim7_counterexample_zero_screen_rows :
    Inv c7State ∧
    Editor.processKeypress c7State ⟨KeyCode.char 'j', false⟩ WriteOutcome.success
      = StepResult.crash := by
  decide

/-- C7 amended: for every reachable state whose text area has at least one
row (`screenRows ≥ 1`), no key event can make the keystroke handler panic. -/
theorem claim7_amended_no_panic (e : Editor) (hInv : Inv e) (hsr : 1 ≤ e.screenRows)
    (ev : KeyEvent) (wo : WriteOutcome) : e.processKeypress ev wo ≠ StepResult.crash :=
  processKeypress_no_crash hInv hsr ev wo

/-- C7 witness: the amended theorem applied to a concrete two-line state. -/
theorem claim7_witness :
    Editor.processKeypress c7Witness ⟨KeyCode.char 'j', false⟩ WriteOutcome.success
      ≠ StepResult.crash :=
  claim7_amended_no_panic c7Witness (by decide) (by decide) ⟨KeyCode.char 'j', false⟩
    WriteOutcome.success

end Rim

namespace Rim

/-! ### C4: half-page scroll -/

/-- The Ctrl-D arm of the Normal-mode handler, reduced. -/
theorem normalMove_ctrlD (e : Editor) :
    e.normalMove ⟨KeyCode.char 'd', true⟩ =
      match csub (min (e.rowOffset + e.screenRows / 2) (e.buffer.lenLines - 1)) e.rowOffset with
      | none => none
      | some dy =>
        some (Editor.scrollCheck
          { e with
              rowOffset := min (e.rowOffset + e.screenRows / 2) (e.buffer.lenLines - 1)
              cy := e.cy - dy }) := rfl

/-- The Ctrl-U arm of the Normal-mode handler, reduced. -/
theorem normalMove_ctrlU (e : Editor) :
    e.normalMove ⟨KeyCode.char 'u', true⟩ =
      match csub e.screenRows 1 with
      | none => none
      | some m =>
        some (Editor.scrollCheck
          { e with
              rowOffset := e.rowOffset - e.screenRows / 2
              cy := min (e.cy + (e.rowOffset - (e.rowOffset - e.screenRows / 2))) m }) := rfl

/-- C4 (confirmed): a half-page scroll sets the new scroll offset to
`rowOffset ± screenRows/2` saturated into `[0, lineCount-1]`, shifts `cy` by
the actual clamped delta (re-clamped into `[0, screenRows-1]`), and preserves
the cursor's absolute row whenever that re-clamp does not bite. -/
theorem claim4_half_page_scroll (e : Editor) (hInv : Inv e) (hsr : 1 ≤ e.screenRows)
    (hm : e.mode = Mode.normal) (wo : WriteOutcome) :
    (∃ e1, e.processKeypress ⟨KeyCode.char 'd', true⟩ wo = .ok e1 true ∧
      e1.rowOffset = min (e.rowOffset + e.screenRows / 2) (lenLines e.buffer.text - 1) ∧
      e1.cy = e.cy - (e1.rowOffset - e.rowOffset) ∧
      (e1.rowOffset - e.rowOffset ≤ e.cy → e1.cy + e1.rowOffset = e.cy + e.rowOffset)) ∧
    (∃ e1, e.processKeypress ⟨KeyCode.char 'u', true⟩ wo = .ok e1 true ∧
      e1.rowOffset = e.rowOffset - e.screenRows / 2 ∧
      e1.cy = min (e.cy + (e.rowOffset - e1.rowOffset)) (e.screenRows - 1) ∧
      (e.cy + (e.rowOffset - e1.rowOffset) ≤ e.screenRows - 1 →
        e1.cy + e1.rowOffset = e.cy + e.rowOffset)) := by
  have hInvN := hInv
  unfold Inv at hInvN
  constructor
  · -- Ctrl-D
    have hle : e.rowOffset ≤ min (e.rowOffset + e.screenRows / 2) (e.buffer.lenLines - 1) := by
      unfold Buffer.lenLines
      omega
    have hInvX : Inv
        { e with
            statusMsg := ""
            rowOffset := min (e.rowOffset + e.screenRows / 2) (e.buffer.lenLines - 1)
            cy := e.cy -
              (min (e.rowOffset + e.screenRows / 2) (e.buffer.lenLines - 1) - e.rowOffset) } := by
      unfold Inv Buffer.lenLines
      dsimp only
      omega
    refine ⟨(Editor.scrollCheck
        { e with
            statusMsg := ""
            rowOffset := min (e.rowOffset + e.screenRows / 2) (e.buffer.lenLines - 1)
            cy := e.cy -
              (min (e.rowOffset + e.screenRows / 2) (e.buffer.lenLines - 1) - e.rowOffset)
        }).clampCursorToLine.scrollCheck, ?_, ?_, ?_, ?_⟩
    · unfold Editor.processKeypress
      rw [hm]
      dsimp only
      unfold Editor.processNormalKeypress
      rw [show e.clearStatusUnlessColon ⟨KeyCode.char 'd', true⟩ = { e with statusMsg := "" } from by
            unfold Editor.clearStatusUnlessColon
            rw [if_neg (by decide)]]
      rw [normalMove_ctrlD]
      dsimp only
      rw [csub_eq_some hle]
      dsimp only
      rw [hm]
    · rw [scrollCheck_eq_self hInvX, (clampScroll_fields hInvX).2.1]
      dsimp only [Buffer.lenLines]
    · rw [scrollCheck_eq_self hInvX, (clampScroll_fields hInvX).1,
          (clampScroll_fields hInvX).2.1]
    · rw [scrollCheck_eq_self hInvX, (clampScroll_fields hInvX).1,
          (clampScroll_fields hInvX).2.1]
      dsimp only
      unfold Buffer.lenLines
      intro hd
      omega
  · -- Ctrl-U
    have hInvX : Inv
        { e with
            statusMsg := ""
            rowOffset := e.rowOffset - e.screenRows / 2
            cy := min (e.cy + (e.rowOffset - (e.rowOffset - e.screenRows / 2)))
              (e.screenRows - 1) } := by
      unfold Inv
      dsimp only
      omega
    refine ⟨(Editor.scrollCheck
        { e with
            statusMsg := ""
            rowOffset := e.rowOffset - e.screenRows / 2
            cy := min (e.cy + (e.rowOffset - (e.rowOffset - e.screenRows / 2)))
              (e.screenRows - 1)
        }).clampCursorToLine.scrollCheck, ?_, ?_, ?_, ?_⟩
    · unfold Editor.processKeypress
      rw [hm]
      dsimp only
      unfold Editor.processNormalKeypress
      rw [show e.clearStatusUnlessColon ⟨KeyCode.char 'u', true⟩ = { e with statusMsg := "" } from by
            unfold Editor.clearStatusUnlessColon
            rw [if_neg (by decide)]]
      rw [normalMove_ctrlU]
      dsimp only
      rw [csub_eq_some hsr]
      dsimp only
      rw [hm]
    · rw [scrollCheck_eq_self hInvX, (clampScroll_fields hInvX).2.1]
    · rw [scrollCheck_eq_self hInvX, (clampScroll_fields hInvX).1,
          (clampScroll_fields hInvX).2.1]
    · rw [scrollCheck_eq_self hInvX, (clampScroll_fields hInvX).1,
          (clampScroll_fields hInvX).2.1]
      dsimp only
      intro hd
      omega


/-- C4 witness: the theorem applied to a seven-line document with a four-row
text area. -/
theorem claim4_witness :
    (∃ e1, c4Witness.processKeypress ⟨KeyCode.char 'd', true⟩ WriteOutcome.success
        = .ok e1 true ∧
      e1.rowOffset = min (c4Witness.rowOffset + c4Witness.screenRows / 2)
        (lenLines c4Witness.buffer.text - 1) ∧
      e1.cy = c4Witness.cy - (e1.rowOffset - c4Witness.rowOffset) ∧
      (e1.rowOffset - c4Witness.rowOffset ≤ c4Witness.cy →
        e1.cy + e1.rowOffset = c4Witness.cy + c4Witness.rowOffset)) ∧
    (∃ e1, c4Witness.processKeypress ⟨KeyCode.char 'u', true⟩ WriteOutcome.success
        = .ok e1 true ∧
      e1.rowOffset = c4Witness.rowOffset - c4Witness.screenRows / 2 ∧
      e1.cy = min (c4Witness.cy + (c4Witness.rowOffset - e1.rowOffset))
        (c4Witness.screenRows - 1) ∧
      (c4Witness.cy + (c4Witness.rowOffset - e1.rowOffset) ≤ c4Witness.screenRows - 1 →
        e1.cy + e1.rowOffset = c4Witness.cy + c4Witness.rowOffset)) :=
  claim4_half_page_scroll c4Witness (by decide) (by decide) rfl WriteOutcome.success


/-- `rebind_filename` (the `:w name` / `:wq name` argument handling) never
touches the dirty flag. -/
theorem rebindFilename_dirty (b : Buffer) (args : List (List Char)) :
    (rebindFilename b args).dirty = b.dirty := by
  unfold rebindFilename
  split <;> rfl

/-- The three quit-family command tokens are pairwise distinct. -/
theorem tokens_distinct :
    ":q".toList ≠ ":q!".toList ∧ ":q".toList ≠ ":wq".toList ∧ ":q!".toList ≠ ":wq".toList := by
  decide

/-- C5: with the file store answering writes successfully, `execute_command`
returns `continue_running = false` exactly when the command token is `:q` on a
clean buffer, `:q!` unconditionally, or `:wq` with a save target present (save
succeeds) or an already-clean buffer; in the remaining cases of those three
commands it keeps running and reports the reason — unsaved changes for `:q`,
a missing filename for `:wq` — in the status message. -/
theorem claim5_quit_semantics (e : Editor) (cmd : List Char) (tok : List Char)
    (args : List (List Char)) (hsplit : splitWhitespace cmd = tok :: args)
    (hq : tok = ":q".toList ∨ tok = ":q!".toList ∨ tok = ":wq".toList) :
    ∃ e1 c, e.executeCommand cmd .success = .ok e1 c ∧
      (c = false ↔
        (tok = ":q".toList ∧ e.buffer.dirty = false) ∨ tok = ":q!".toList ∨
        (tok = ":wq".toList ∧
          ((rebindFilename e.buffer args).filename ≠ none ∨ e.buffer.dirty = false))) ∧
      (tok = ":q".toList → e.buffer.dirty = true →
        e1.statusMsg = "No write since last change (use :q! to override)") ∧
      (tok = ":wq".toList → (rebindFilename e.buffer args).filename = none →
        e.buffer.dirty = true →
        e1.statusMsg = "No filename specified. Use :w <filename>") := by
  obtain ⟨t1, t2, t3⟩ := tokens_distinct
  rcases hq with h | h | h <;> subst h
  · unfold Editor.executeCommand
    rw [hsplit]
    dsimp only
    rw [if_pos rfl]
    by_cases hd : e.buffer.dirty = true
    · rw [if_pos hd]
      refine ⟨_, _, rfl, ?_, ?_, ?_⟩
      · simp [hd, t1, t2]
      · intro _ _
        rfl
      · intro hw
        exact absurd hw t2
    · rw [if_neg hd]
      have hdf : e.buffer.dirty = false := by
        simpa using hd
      refine ⟨_, _, rfl, ?_, ?_, ?_⟩
      · simp [hdf]
      · intro _ hcontra
        rw [hdf] at hcontra
        exact absurd hcontra (by decide)
      · intro hw
        exact absurd hw t2
  · unfold Editor.executeCommand
    rw [hsplit]
    dsimp only
    rw [if_neg (Ne.symm t1), if_pos rfl]
    refine ⟨_, _, rfl, ?_, ?_, ?_⟩
    · simp
    · intro hw
      exact absurd hw (Ne.symm t1)
    · intro hw
      exact absurd hw t3
  · unfold Editor.executeCommand
    rw [hsplit]
    dsimp only
    rw [if_neg (Ne.symm t2), if_neg (Ne.symm t3),
        if_neg (show ":wq".toList ≠ ":w".toList from by decide), if_pos rfl]
    rcases hf : (rebindFilename e.buffer args).filename with _ | f
    · have hsave : (rebindFilename e.buffer args).save .success =
          .ok ((rebindFilename e.buffer args), false) := by
        unfold Buffer.save
        rw [hf]
      rw [hsave]
      dsimp only
      rw [rebindFilename_dirty]
      by_cases hd : e.buffer.dirty = true
      · rw [if_neg (by simpa using hd)]
        refine ⟨_, _, rfl, ?_, ?_, ?_⟩
        · constructor
          · intro hc
            exact absurd hc (by decide)
          · rintro (⟨hw, -⟩ | hw | ⟨-, hfn | hdf⟩)
            · exact absurd hw.symm t2
            · exact absurd hw.symm t3
            · exact absurd rfl hfn
            · rw [hd] at hdf
              exact absurd hdf (by decide)
        · intro hw
          exact absurd hw.symm t2
        · intro _ _ _
          rfl
      · have hdf : e.buffer.dirty = false := by
          simpa using hd
        rw [if_pos (by simpa using hd)]
        refine ⟨_, _, rfl, ?_, ?_, ?_⟩
        · simp [hdf]
        · intro hw
          exact absurd hw.symm t2
        · intro _ _ hcontra
          rw [hdf] at hcontra
          exact absurd hcontra (by decide)
    · have hsave : (rebindFilename e.buffer args).save .success =
          .ok (⟨(rebindFilename e.buffer args).text, some f, false⟩, true) := by
        unfold Buffer.save
        rw [hf]
      rw [hsave]
      dsimp only
      refine ⟨_, _, rfl, ?_, ?_, ?_⟩
      · constructor
        · intro _
          exact Or.inr (Or.inr ⟨rfl, Or.inl (fun h => Option.noConfusion h)⟩)
        · intro _
          rfl
      · intro hw
        exact absurd hw.symm t2
      · intro _ hnone
        exact Option.noConfusion hnone

/-- C5 witness: the theorem applied to `:q` on a dirty unnamed buffer. -/
theorem claim5_witness :
    splitWhitespace ":q".toList = ":q".toList :: [] ∧
    (∃ e1 c, c5Witness.executeCommand ":q".toList .success = .ok e1 c ∧
      (c = false ↔
        (":q".toList = ":q".toList ∧ c5Witness.buffer.dirty = false) ∨
        ":q".toList = ":q!".toList ∨
        (":q".toList = ":wq".toList ∧
          ((rebindFilename c5Witness.buffer []).filename ≠ none ∨
            c5Witness.buffer.dirty = false))) ∧
      (":q".toList = ":q".toList → c5Witness.buffer.dirty = true →
        e1.statusMsg = "No write since last change (use :q! to override)") ∧
      (":q".toList = ":wq".toList → (rebindFilename c5Witness.buffer []).filename = none →
        c5Witness.buffer.dirty = true →
        e1.statusMsg = "No filename specified. Use :w <filename>")) :=
  ⟨by decide, claim5_quit_semantics c5Witness (":q".toList) (":q".toList) []
    (by decide) (Or.inl rfl)⟩


/-- C6 counterexample: a `:w` on a buffer bound to a filename, when the
underlying write fails, does not leave the editor running with a status
message — `save()?` propagates the error out of `process_keypress`, `run`
returns `Err`, and `main` exits the process with code 1. -/
theorem claim6_counterexample_write_error_fatal :
    runStep c6State ⟨KeyCode.enter, false⟩ WriteOutcome.failure = RunOutcome.exitErr := by
  decide

/-- C6 (amended): an unreadable existing file aborts startup with the I/O
error, and a failing write under `:w` / `:wq` terminates the session with
exit code 1; only the missing-filename save failure is surfaced via the
status line with the editor still running. -/
theorem claim6_amended_io_error_paths (e : Editor) (cmd : List Char) (name : String)
    (tok : List Char) (args : List (List Char))
    (hm : e.mode = Mode.command cmd)
    (hsplit : splitWhitespace cmd = tok :: args)
    (hw : tok = ":w".toList ∨ tok = ":wq".toList) :
    Buffer.fromFile name LoadOutcome.readError = Except.error IOErr.ioError ∧
    ((rebindFilename e.buffer args).filename = none → e.buffer.dirty = true →
      ∃ e1, runStep e ⟨KeyCode.enter, false⟩ WriteOutcome.failure
          = RunOutcome.continues e1 ∧
        e1.statusMsg = "No filename specified. Use :w <filename>") ∧
    ((rebindFilename e.buffer args).filename ≠ none →
      runStep e ⟨KeyCode.enter, false⟩ WriteOutcome.failure = RunOutcome.exitErr) := by
  have key : e.processKeypress ⟨KeyCode.enter, false⟩ WriteOutcome.failure
      = Editor.executeCommand { e with mode := Mode.normal } cmd WriteOutcome.failure := by
    unfold Editor.processKeypress
    rw [hm]
    dsimp only
    unfold Editor.processCommandKeypress
    rw [hm]
  refine ⟨rfl, ?_, ?_⟩
  · intro hfn hd
    have hsave : (rebindFilename e.buffer args).save WriteOutcome.failure
        = .ok ((rebindFilename e.buffer args), false) := by
      unfold Buffer.save
      rw [hfn]
    unfold runStep
    rw [key]
    unfold Editor.executeCommand
    rw [hsplit]
    dsimp only
    rcases hw with h | h <;> subst h
    · rw [if_neg (by decide), if_neg (by decide), if_pos rfl]
      rw [hsave]
      dsimp only
      exact ⟨_, rfl, rfl⟩
    · rw [if_neg (by decide), if_neg (by decide), if_neg (by decide), if_pos rfl]
      rw [hsave]
      dsimp only
      rw [rebindFilename_dirty, hd]
      rw [if_neg (by decide)]
      exact ⟨_, rfl, rfl⟩
  · intro hfn
    obtain ⟨f, hf⟩ : ∃ f, (rebindFilename e.buffer args).filename = some f := by
      cases hx : (rebindFilename e.buffer args).filename
      · exact absurd hx hfn
      · exact ⟨_, rfl⟩
    have hsave : (rebindFilename e.buffer args).save WriteOutcome.failure
        = .error .ioError := by
      unfold Buffer.save
      rw [hf]
    unfold runStep
    rw [key]
    unfold Editor.executeCommand
    rw [hsplit]
    dsimp only
    rcases hw with h | h <;> subst h
    · rw [if_neg (by decide), if_neg (by decide), if_pos rfl, hsave]
    · rw [if_neg (by decide), if_neg (by decide), if_neg (by decide), if_pos rfl, hsave]

/-- C6 witness: the amended theorem applied to a pending `:w` on a dirty
unnamed buffer. -/
theorem claim6_witness :
    c6Witness.mode = Mode.command ":w".toList ∧
    splitWhitespace ":w".toList = ":w".toList :: [] ∧
    (Buffer.fromFile "f.txt" LoadOutcome.readError = Except.error IOErr.ioError ∧
     ((rebindFilename c6Witness.buffer []).filename = none →
       c6Witness.buffer.dirty = true →
       ∃ e1, runStep c6Witness ⟨KeyCode.enter, false⟩ WriteOutcome.failure
           = RunOutcome.continues e1 ∧
         e1.statusMsg = "No filename specified. Use :w <filename>") ∧
     ((rebindFilename c6Witness.buffer []).filename ≠ none →
       runStep c6Witness ⟨KeyCode.enter, false⟩ WriteOutcome.failure
           = RunOutcome.exitErr)) :=
  ⟨rfl, by decide, claim6_amended_io_error_paths c6Witness ":w".toList "f.txt" ":w".toList []
    rfl (by decide) (Or.inl rfl)⟩


/-- C8: save-then-reload is byte-faithful. Reloading the exact bytes `save`
writes yields a buffer with the same text, the same saved bytes, the same
line count, and identical content on every line; and when the bytes do not
end in a newline the last line is nonempty, so no implicit extra empty line
appears. -/
theorem claim8_round_trip (b : Buffer) (name : String) :
    ∃ b2, Buffer.fromFile name (LoadOutcome.found (Buffer.savedBytes b)) = .ok b2 ∧
      b2.text = b.text ∧
      Buffer.savedBytes b2 = Buffer.savedBytes b ∧
      b2.lenLines = b.lenLines ∧
      (∀ r, lineText b2.text r = lineText b.text r) ∧
      (b.text ≠ [] → b.text.getLast? ≠ some '\n' →
        lineText b2.text (lenLines b2.text - 1) ≠ []) := by
  refine ⟨_, rfl, rfl, rfl, rfl, fun r => rfl, ?_⟩
  intro hne hnl
  show lineText b.text (lenLines b.text - 1) ≠ []
  have hlt := last_line_start_lt_length b.text hne hnl
  have heq : lineStart b.text (b.text.count '\n' + 1) = b.text.length :=
    lineStart_eq_length b.text (Nat.lt_succ_self _)
  have hc : lenLines b.text - 1 = b.text.count '\n' := by
    unfold lenLines
    omega
  rw [hc]
  unfold lineText lineLen
  rw [heq]
  apply List.ne_nil_of_length_pos
  rw [List.length_take, List.length_drop]
  omega


/-- C9: in Visual mode `get_selection_range` returns the anchor and the live
cursor position `(cx, cy + row_offset)` as a pair ordered lexicographically
by (row, column) with start ≤ end, swapping the two exactly when the live
cursor strictly precedes the anchor; in every other mode it returns `none`. -/
theorem claim9_selection_normalization (e : Editor) :
    (∀ a, e.mode = Mode.visual a →
      ∃ p q, e.getSelectionRange = some (p, q) ∧
        (p.2 < q.2 ∨ (p.2 = q.2 ∧ p.1 ≤ q.1)) ∧
        ((p = a ∧ q = (e.cx, e.cy + e.rowOffset)) ∨
          (p = (e.cx, e.cy + e.rowOffset) ∧ q = a)) ∧
        ((e.cy + e.rowOffset < a.2 ∨ (e.cy + e.rowOffset = a.2 ∧ e.cx < a.1)) →
          p = (e.cx, e.cy + e.rowOffset) ∧ q = a)) ∧
    ((∀ a, e.mode ≠ Mode.visual a) → e.getSelectionRange = none) := by
  constructor
  · intro a hm
    unfold Editor.getSelectionRange
    rw [hm]
    dsimp only
    by_cases hc : e.cy + e.rowOffset < a.2 ∨ (e.cy + e.rowOffset = a.2 ∧ e.cx < a.1)
    · rw [if_pos hc]
      refine ⟨_, _, rfl, ?_, Or.inr ⟨rfl, rfl⟩, fun _ => ⟨rfl, rfl⟩⟩
      dsimp only
      omega
    · rw [if_neg hc]
      refine ⟨_, _, rfl, ?_, Or.inl ⟨rfl, rfl⟩, fun h => absurd h hc⟩
      dsimp only
      omega
  · intro h
    unfold Editor.getSelectionRange
    cases hm : e.mode with
    | visual a => exact absurd hm (h a)
    | normal => rfl
    | insert => rfl
    | command cb => rfl

/-- C9 witness: the specification scenario — anchor (0,0), live cursor at
column 2 of absolute row 1 — normalizes without a swap to ((0,0),(2,1)). -/
theorem claim9_witness :
    c9Witness.getSelectionRange = some ((0, 0), (2, 1)) := by decide


/-- C10: with no filename bound, `save` returns `false` touching nothing —
same buffer, same text, dirty flag intact — so a no-argument `:w` only sets
the missing-filename status message, the buffer stays dirty, and a
subsequent `:q` still refuses to quit with the unsaved-changes message. -/
theorem claim10_unset_filename_save (e : Editor) (wo wo2 : WriteOutcome)
    (hfn : e.buffer.filename = none) :
    e.buffer.save wo = .ok (e.buffer, false) ∧
    (e.buffer.dirty = true →
      ∃ e1, e.executeCommand ":w".toList wo = .ok e1 true ∧
        e1.buffer = e.buffer ∧
        e1.statusMsg = "No filename specified. Use :w <filename>" ∧
        e1.buffer.dirty = true ∧
        ∃ e2, e1.executeCommand ":q".toList wo2 = .ok e2 true ∧
          e2.statusMsg = "No write since last change (use :q! to override)") := by
  have hsave : ∀ w : WriteOutcome, e.buffer.save w = .ok (e.buffer, false) := by
    intro w
    unfold Buffer.save
    rw [hfn]
  have hq2 : ∀ (x : Editor), x.buffer.dirty = true →
      ∃ e2, x.executeCommand ":q".toList wo2 = .ok e2 true ∧
        e2.statusMsg = "No write since last change (use :q! to override)" := by
    intro x hx
    unfold Editor.executeCommand
    rw [show splitWhitespace ":q".toList = [":q".toList] from by decide]
    dsimp only
    rw [if_pos rfl, if_pos hx]
    exact ⟨_, rfl, rfl⟩
  have hw1 : e.executeCommand ":w".toList wo
      = .ok { e with buffer := e.buffer, statusMsg := "No filename specified. Use :w <filename>" } true := by
    unfold Editor.executeCommand
    rw [show splitWhitespace ":w".toList = [":w".toList] from by decide]
    dsimp only
    rw [if_neg (by decide), if_neg (by decide), if_pos rfl]
    rw [show rebindFilename e.buffer [] = e.buffer from rfl]
    rw [hsave wo]
  exact ⟨hsave wo, fun hd => ⟨_, hw1, rfl, rfl, hd, hq2 _ hd⟩⟩

/-- C10 witness: the theorem applied to a dirty unnamed one-line buffer. -/
theorem claim10_witness :
    c10Witness.buffer.filename = none ∧
    (Buffer.save c10Witness.buffer WriteOutcome.success
        = .ok (c10Witness.buffer, false) ∧
      (c10Witness.buffer.dirty = true →
        ∃ e1, c10Witness.executeCommand ":w".toList WriteOutcome.success
            = .ok e1 true ∧
          e1.buffer = c10Witness.buffer ∧
          e1.statusMsg = "No filename specified. Use :w <filename>" ∧
          e1.buffer.dirty = true ∧
          ∃ e2, e1.executeCommand ":q".toList WriteOutcome.success = .ok e2 true ∧
            e2.statusMsg = "No write since last change (use :q! to override)")) :=
  ⟨by decide, claim10_unset_filename_save c10Witness WriteOutcome.success
    WriteOutcome.success (by decide)⟩

end Rim
